import Mathlib

/-!
Verification of the options-overlay backtester in
`src/strategy/pandas_backtest.py`.

The file has two layers.

1. A polymorphic shallow embedding of the simulation loop of
   `backtest_option_strategy` (lines 30-245 of the source).  Python floats
   are modelled by an arbitrary `LinearOrderedField`; the Black-Scholes
   pricer, which the loop only consumes through its returned value, is a
   function parameter `price`.  Instantiating the field at `ℝ` and `price`
   at the real pricer below recovers the program; instantiating at `ℚ`
   makes every step of a concrete run computable by `decide`.

2. An embedding over `ℝ` of `estimate_put_option_price` (lines 7-28),
   with the standard normal CDF `Phi` defined by its integral.
-/

namespace Backtest

variable {α : Type} [LinearOrderedField α]

/-- One input day of the simulation: the row of inputs that
`backtest_option_strategy` reads (`spy_price`, `vix`, `prob`).  The
`actual_crash` column is only used for plotting and is omitted. -/
structure Day (α : Type) where
  price : α
  vix : α
  prob : α
  deriving Repr, DecidableEq

/-- Configuration arguments of `backtest_option_strategy`:
`threshold`, `strike_pct`, `option_expiry_days`. -/
structure Cfg (α : Type) where
  threshold : α
  strike_pct : α
  option_expiry_days : ℕ
  deriving Repr, DecidableEq

/-- One ledger row of the `strategy` DataFrame; fields that the source
initialises to NaN and only sometimes assigns are modelled as `Option α`
(`none` = NaN).  `opened` is instrumentation: `true` exactly when the
entry branch (source lines 157-187, which assigns `option_start_idx = i`
for the current day `i`) ran on this day. -/
structure Row (α : Type) [LinearOrderedField α] where
  stock_balance : α
  has_active_option : Bool := false
  option_start_idx : ℤ := -1
  option_expiry_idx : ℤ := -1
  strike_price : Option α := none
  option_price : Option α := none
  option_cost : Option α := none
  option_balance : α := 0
  cash_balance : α := 0
  exit_type : String := ""
  strategy_balance : α := 0
  opened : Bool := false
  deriving Repr, DecidableEq

/-- The loop-carried state of the simulation (source lines 90-94 and the
running `option_cost`); `prevCash` carries `cash_balance` of the previous
row (source line 103).  The numeric fields are junk (source: unbound /
NaN) until the first entry and are only read while `active` is set. -/
structure BtState (α : Type) [LinearOrderedField α] where
  active : Bool := false
  startIdx : ℤ := -1
  expiryIdx : ℤ := -1
  strike : α := 0
  entryPrice : α := 0
  optionCost : α := 0
  prevCash : α := 0
  deriving Repr, DecidableEq

/-- `risk_free_rate = 0.02` (source line 60). -/
def risk_free_rate : α := 2 / 100

/-- `option_coverage = 1.0` (source line 62). -/
def option_coverage : α := 1

/-- One iteration of the simulation loop (source lines 96-187) at day
index `i`, producing the successor state and the day's ledger row. -/
def stepDay (price : α → α → α → α → α → α) (cfg : Cfg α)
    (s : BtState α) (i : ℕ) (d : Day α) : BtState α × Row α :=
  -- line 103: the day's cash starts from the previous day's cash
  let cash0 := s.prevCash
  -- lines 108-112: fields recorded on any day with an active option
  let activeBase : Row α :=
    { stock_balance := d.price
      has_active_option := true
      option_start_idx := s.startIdx
      option_expiry_idx := s.expiryIdx
      strike_price := some s.strike
      option_cost := some s.optionCost
      cash_balance := cash0 }
  let remaining : ℤ := s.expiryIdx - (i : ℤ)
  if s.active then
    if 0 < remaining then
      -- lines 116-131: mark to market with the day's implied vol
      let days_to_expiry : α := (remaining : α) / 252
      let implied_vol : α := d.vix / 100
      let cur := price d.price s.strike days_to_expiry risk_free_rate implied_vol
      if d.prob < cfg.threshold ∧ s.optionCost < cur then
        -- lines 134-140: threshold exit, then `continue`
        ({ s with active := false, prevCash := cash0 + cur * option_coverage },
         { activeBase with
           option_price := some cur
           cash_balance := cash0 + cur * option_coverage
           option_balance := 0
           exit_type := "threshold_exit" })
      else if (i : ℤ) = s.expiryIdx then
        -- lines 143-154 as reached from the hold path; unreachable here
        -- since `0 < remaining` contradicts `i = expiryIdx`, kept to
        -- mirror the source's sequential checks
        let payoff := max 0 (s.strike - d.price)
        ({ s with active := false, prevCash := cash0 + payoff * option_coverage },
         { activeBase with
           option_price := some payoff
           cash_balance := cash0 + payoff * option_coverage
           option_balance := 0
           exit_type := "expiry" })
      else
        -- hold: keep the marked value on the books
        ({ s with prevCash := cash0 },
         { activeBase with
           option_price := some cur
           option_balance := cur * option_coverage })
    else if (i : ℤ) = s.expiryIdx then
      -- lines 143-154: expiry, intrinsic value only
      let payoff := max 0 (s.strike - d.price)
      ({ s with active := false, prevCash := cash0 + payoff * option_coverage },
       { activeBase with
         option_price := some payoff
         cash_balance := cash0 + payoff * option_coverage
         option_balance := 0
         exit_type := "expiry" })
    else
      -- active, past expiry, not the expiry day: no branch fires
      ({ s with prevCash := cash0 }, activeBase)
  else if cfg.threshold ≤ d.prob then
    -- lines 157-187: open a new position (`signal == 1`)
    let implied_vol : α := d.vix / 100
    let strike := d.price * cfg.strike_pct
    let entry := price d.price strike ((cfg.option_expiry_days : α) / 252)
      risk_free_rate implied_vol
    let cost := entry * option_coverage
    ({ active := true
       startIdx := (i : ℤ)
       expiryIdx := (i : ℤ) + (cfg.option_expiry_days : ℤ)
       strike := strike
       entryPrice := entry
       optionCost := cost
       prevCash := cash0 - cost },
     { stock_balance := d.price
       has_active_option := true
       option_start_idx := (i : ℤ)
       option_expiry_idx := (i : ℤ) + (cfg.option_expiry_days : ℤ)
       strike_price := some strike
       option_price := some entry
       option_cost := some cost
       option_balance := cost
       cash_balance := cash0 - cost
       opened := true })
  else
    ({ s with prevCash := cash0 }, { stock_balance := d.price, cash_balance := cash0 })

/-- The simulation loop (source lines 96-187) from state `s` at absolute
day index `i`, returning one ledger row per remaining input day. -/
def runRows (price : α → α → α → α → α → α) (cfg : Cfg α) :
    BtState α → ℕ → List (Day α) → List (Row α)
  | _, _, [] => []
  | s, i, d :: ds =>
    (stepDay price cfg s i d).2 ::
      runRows price cfg (stepDay price cfg s i d).1 (i + 1) ds

/-- The state left after the simulation loop has consumed all days. -/
def runState (price : α → α → α → α → α → α) (cfg : Cfg α) :
    BtState α → ℕ → List (Day α) → BtState α
  | s, _, [] => s
  | s, i, d :: ds => runState price cfg (stepDay price cfg s i d).1 (i + 1) ds

/-- The ledger rows of a full run of `backtest_option_strategy`, started
from the initial state of source lines 90-94. -/
def rowsOf (price : α → α → α → α → α → α) (cfg : Cfg α)
    (days : List (Day α)) : List (Row α) :=
  runRows price cfg {} 0 days

/-- Source line 193: `strategy_balance = stock_balance + option_balance
+ cash_balance`, written into each row after the simulation loop. -/
def withStrategyBalance (r : Row α) : Row α :=
  { r with strategy_balance := r.stock_balance + r.option_balance + r.cash_balance }

/-- The finished ledger: the simulated rows with `strategy_balance`
filled in by the second pass (source lines 192-197; the return columns
computed there are not needed by any claim). -/
def ledgerOf (price : α → α → α → α → α → α) (cfg : Cfg α)
    (days : List (Day α)) : List (Row α) :=
  (rowsOf price cfg days).map withStrategyBalance

/-- Source line 243: `expiry_exits`. -/
def countExpiry (rows : List (Row α)) : ℕ :=
  (rows.filter (fun r => r.exit_type == "expiry")).length

/-- Source line 244: `threshold_exits`. -/
def countThresholdExits (rows : List (Row α)) : ℕ :=
  (rows.filter (fun r => r.exit_type == "threshold_exit")).length

/-- Source line 245: `still_active`. -/
def countStillActive (rows : List (Row α)) : ℕ :=
  (rows.filter (fun r => r.exit_type == "still_active")).length

/-- A row recording one of the two exit events the loop can write
(source lines 136 and 151). -/
def isExitRow (r : Row α) : Prop :=
  r.exit_type = "threshold_exit" ∨ r.exit_type = "expiry"

instance (r : Row α) : Decidable (isExitRow r) := by
  unfold isExitRow; infer_instance

namespace BS

open MeasureTheory intervalIntegral

/-- The standard normal density. -/
noncomputable def gauss (t : ℝ) : ℝ :=
  (Real.sqrt (2 * Real.pi))⁻¹ * Real.exp (-(t ^ 2 / 2))

/-- The standard normal CDF `Φ` (`stats.norm.cdf` in the source, which is
an external library: the spec describes it as the standard normal CDF),
written with its integral split at 0. -/
noncomputable def Phi (x : ℝ) : ℝ :=
  1 / 2 + ∫ t in (0 : ℝ)..x, gauss t

/-- `d1` of `estimate_put_option_price` (source line 23). -/
noncomputable def bsD1 (S K T r sigma q : ℝ) : ℝ :=
  (Real.log (S / K) + (r - q + 0.5 * sigma ^ 2) * T) / (sigma * Real.sqrt T)

/-- `d2` of `estimate_put_option_price` (source line 24). -/
noncomputable def bsD2 (S K T r sigma q : ℝ) : ℝ :=
  bsD1 S K T r sigma q - sigma * Real.sqrt T

/-- `estimate_put_option_price` (source lines 7-28): the Black-Scholes
put price `K·e^(-rT)·Φ(-d2) − S·e^(-qT)·Φ(-d1)` (source line 26). -/
noncomputable def estimate_put_option_price (S K T r sigma q : ℝ) : ℝ :=
  K * Real.exp (-(r * T)) * Phi (-(bsD2 S K T r sigma q)) -
    S * Real.exp (-(q * T)) * Phi (-(bsD1 S K T r sigma q))

/-- Modelled from the spec's own words (section 4.1), to be compared with
the source definition: "`d1 = (ln(S/K) + (r - q + 0.5σ²)·T) / (σ√T)`,
`d2 = d1 - σ√T`, `put = K·e^(-rT)·Φ(-d2) − S·e^(-qT)·Φ(-d1)`, where Φ is
the standard normal CDF". -/
noncomputable def specPut (S K T r sigma q : ℝ) : ℝ :=
  let d1 := (Real.log (S / K) + (r - q + 0.5 * sigma ^ 2) * T) / (sigma * Real.sqrt T)
  let d2 := d1 - sigma * Real.sqrt T
  K * Real.exp (-(r * T)) * Phi (-d2) - S * Real.exp (-(q * T)) * Phi (-d1)

end BS

/-- The program itself: `backtest_option_strategy` run with the
Black-Scholes pricer of source lines 7-28 (the call sites at lines 122
and 163 leave `dividend_yield` at its default `0.0`). -/
noncomputable def backtest_option_strategy (cfg : Cfg ℝ) (days : List (Day ℝ)) :
    List (Row ℝ) :=
  ledgerOf (fun S K T r sigma => BS.estimate_put_option_price S K T r sigma 0) cfg days

end Backtest

namespace Backtest

variable {α : Type} [LinearOrderedField α]

theorem stepDay_exit_type_mem (price : α → α → α → α → α → α) (cfg : Cfg α)
    (s : BtState α) (i : ℕ) (d : Day α) :
    (stepDay price cfg s i d).2.exit_type = "" ∨
      isExitRow (stepDay price cfg s i d).2 := by
  simp only [stepDay, isExitRow]
  split_ifs <;> simp

theorem stepDay_opened_of_inactive (price : α → α → α → α → α → α) (cfg : Cfg α)
    (s : BtState α) (i : ℕ) (d : Day α)
    (h : (stepDay price cfg s i d).2.opened = true) : s.active = false := by
  by_contra hs
  simp only [Bool.not_eq_false] at hs
  simp only [stepDay, hs, if_true] at h
  split_ifs at h

theorem stepDay_opened_next_active (price : α → α → α → α → α → α) (cfg : Cfg α)
    (s : BtState α) (i : ℕ) (d : Day α)
    (h : (stepDay price cfg s i d).2.opened = true) :
    (stepDay price cfg s i d).1.active = true := by
  simp only [stepDay] at h ⊢
  split_ifs at h ⊢
  all_goals simp_all

theorem stepDay_exit_of_close (price : α → α → α → α → α → α) (cfg : Cfg α)
    (s : BtState α) (i : ℕ) (d : Day α) (hact : s.active = true)
    (h : (stepDay price cfg s i d).1.active = false) :
    isExitRow (stepDay price cfg s i d).2 := by
  simp only [stepDay, isExitRow, hact, if_true] at h ⊢
  split_ifs at h ⊢ <;> simp_all

theorem runRows_length (price : α → α → α → α → α → α) (cfg : Cfg α)
    (s : BtState α) (i : ℕ) (days : List (Day α)) :
    (runRows price cfg s i days).length = days.length := by
  induction days generalizing s i with
  | nil => rfl
  | cons d ds ih => simp [runRows, ih]

end Backtest

namespace Backtest

variable {α : Type} [LinearOrderedField α]

/-- C1: for every day index `t` of the ledger produced by the backtest,
`strategy_balance[t] = stock_balance[t] + option_balance[t] +
cash_balance[t]` exactly (source line 193). -/
theorem strategy_balance_additive (price : α → α → α → α → α → α) (cfg : Cfg α)
    (days : List (Day α)) (t : ℕ) (ht : t < (ledgerOf price cfg days).length) :
    ((ledgerOf price cfg days).get ⟨t, ht⟩).strategy_balance =
      ((ledgerOf price cfg days).get ⟨t, ht⟩).stock_balance +
        ((ledgerOf price cfg days).get ⟨t, ht⟩).option_balance +
        ((ledgerOf price cfg days).get ⟨t, ht⟩).cash_balance := by
  simp only [ledgerOf, List.get_eq_getElem, List.getElem_map, withStrategyBalance]

/-- Witness for C1 at a concrete one-day input over `ℚ`. -/
theorem strategy_balance_additive_witness :
    ((ledgerOf (α := ℚ) (fun _ _ _ _ _ => 1) ⟨1/2, 19/20, 21⟩ [⟨100, 20, 3/5⟩]).get
        ⟨0, by norm_num [ledgerOf, rowsOf, runRows]⟩).strategy_balance =
      ((ledgerOf (α := ℚ) (fun _ _ _ _ _ => 1) ⟨1/2, 19/20, 21⟩ [⟨100, 20, 3/5⟩]).get
        ⟨0, by norm_num [ledgerOf, rowsOf, runRows]⟩).stock_balance +
        ((ledgerOf (α := ℚ) (fun _ _ _ _ _ => 1) ⟨1/2, 19/20, 21⟩ [⟨100, 20, 3/5⟩]).get
          ⟨0, by norm_num [ledgerOf, rowsOf, runRows]⟩).option_balance +
        ((ledgerOf (α := ℚ) (fun _ _ _ _ _ => 1) ⟨1/2, 19/20, 21⟩ [⟨100, 20, 3/5⟩]).get
          ⟨0, by norm_num [ledgerOf, rowsOf, runRows]⟩).cash_balance :=
  strategy_balance_additive (fun _ _ _ _ _ => 1) ⟨1/2, 19/20, 21⟩ [⟨100, 20, 3/5⟩] 0
    (by norm_num [ledgerOf, rowsOf, runRows])

/-- C2: on a day where the position is active and `i` equals the expiry
index, the day resolves as an expiry exit regardless of the crash
probability: the option is valued at its intrinsic value
`max 0 (strike - spot)`, cash increases by that payoff times coverage,
the option balance becomes `0`, `exit_type` is `"expiry"`, the position
closes, and the threshold exit does not fire (source lines 142-154). -/
theorem expiry_day_exit (price : α → α → α → α → α → α) (cfg : Cfg α)
    (s : BtState α) (i : ℕ) (d : Day α) (hact : s.active = true)
    (hexp : (i : ℤ) = s.expiryIdx) :
    (stepDay price cfg s i d).2.exit_type = "expiry" ∧
      (stepDay price cfg s i d).2.option_price = some (max 0 (s.strike - d.price)) ∧
      (stepDay price cfg s i d).2.cash_balance =
        s.prevCash + max 0 (s.strike - d.price) * option_coverage ∧
      (stepDay price cfg s i d).2.option_balance = 0 ∧
      (stepDay price cfg s i d).1.active = false ∧
      (stepDay price cfg s i d).2.exit_type ≠ "threshold_exit" := by
  simp [stepDay, hact, ← hexp]

/-- Witness for C2 at a concrete active state over `ℚ`. -/
theorem expiry_day_exit_witness :
    (stepDay (α := ℚ) (fun _ _ _ _ _ => 1) ⟨1/2, 19/20, 21⟩
        ⟨true, 0, 5, 95, 3, 3, 10⟩ 5 ⟨90, 20, 3/5⟩).2.exit_type = "expiry" ∧
      (stepDay (α := ℚ) (fun _ _ _ _ _ => 1) ⟨1/2, 19/20, 21⟩
        ⟨true, 0, 5, 95, 3, 3, 10⟩ 5 ⟨90, 20, 3/5⟩).2.option_price =
        some (max 0 ((95 : ℚ) - 90)) ∧
      (stepDay (α := ℚ) (fun _ _ _ _ _ => 1) ⟨1/2, 19/20, 21⟩
        ⟨true, 0, 5, 95, 3, 3, 10⟩ 5 ⟨90, 20, 3/5⟩).2.cash_balance =
        10 + max 0 ((95 : ℚ) - 90) * option_coverage ∧
      (stepDay (α := ℚ) (fun _ _ _ _ _ => 1) ⟨1/2, 19/20, 21⟩
        ⟨true, 0, 5, 95, 3, 3, 10⟩ 5 ⟨90, 20, 3/5⟩).2.option_balance = 0 ∧
      (stepDay (α := ℚ) (fun _ _ _ _ _ => 1) ⟨1/2, 19/20, 21⟩
        ⟨true, 0, 5, 95, 3, 3, 10⟩ 5 ⟨90, 20, 3/5⟩).1.active = false ∧
      (stepDay (α := ℚ) (fun _ _ _ _ _ => 1) ⟨1/2, 19/20, 21⟩
        ⟨true, 0, 5, 95, 3, 3, 10⟩ 5 ⟨90, 20, 3/5⟩).2.exit_type ≠ "threshold_exit" :=
  expiry_day_exit (fun _ _ _ _ _ => 1) ⟨1/2, 19/20, 21⟩
    ⟨true, 0, 5, 95, 3, 3, 10⟩ 5 ⟨90, 20, 3/5⟩ rfl (by norm_num)

/-- C3: on a day where the position is active with positive remaining
days, a threshold exit occurs iff the crash probability is below the
threshold AND the marked-to-market put price exceeds the original entry
premium; on such an exit cash increases by the current price times
coverage, the option balance becomes `0`, the position closes and no new
position opens the same day (source lines 133-140; `option_cost` equals
the entry premium since `option_coverage = 1`). -/
theorem threshold_exit_rule (price : α → α → α → α → α → α) (cfg : Cfg α)
    (s : BtState α) (i : ℕ) (d : Day α) (hact : s.active = true)
    (hrem : 0 < s.expiryIdx - (i : ℤ)) (hcost : s.optionCost = s.entryPrice) :
    ((stepDay price cfg s i d).2.exit_type = "threshold_exit" ↔
      d.prob < cfg.threshold ∧
        s.entryPrice <
          price d.price s.strike (((s.expiryIdx - (i : ℤ)) : α) / 252)
            risk_free_rate (d.vix / 100)) ∧
    (d.prob < cfg.threshold →
      s.entryPrice <
        price d.price s.strike (((s.expiryIdx - (i : ℤ)) : α) / 252)
          risk_free_rate (d.vix / 100) →
      (stepDay price cfg s i d).2.exit_type = "threshold_exit" ∧
        (stepDay price cfg s i d).2.cash_balance =
          s.prevCash +
            price d.price s.strike (((s.expiryIdx - (i : ℤ)) : α) / 252)
              risk_free_rate (d.vix / 100) * option_coverage ∧
        (stepDay price cfg s i d).2.option_balance = 0 ∧
        (stepDay price cfg s i d).1.active = false ∧
        (stepDay price cfg s i d).2.opened = false) := by
  have hne : ¬ ((i : ℤ) = s.expiryIdx) := by omega
  by_cases hC1 : d.prob < cfg.threshold <;>
    by_cases hC2 : s.entryPrice <
      price d.price s.strike (((s.expiryIdx - (i : ℤ)) : α) / 252)
        risk_free_rate (d.vix / 100) <;>
    push_cast at hC2 <;>
    simp [stepDay, hact, hrem, hne, hcost, hC1, hC2]
  all_goals decide

/-- Witness for C3 at a concrete active state over `ℚ` on which the
threshold exit fires. -/
theorem threshold_exit_rule_witness :
    ((stepDay (α := ℚ) (fun _ _ _ _ _ => 3) ⟨1/2, 19/20, 21⟩
        ⟨true, 0, 10, 95, 2, 2, 5⟩ 4 ⟨100, 20, 1/4⟩).2.exit_type = "threshold_exit" ↔
      (1 : ℚ)/4 < 1/2 ∧ (2 : ℚ) < 3) ∧
    ((1 : ℚ)/4 < 1/2 → (2 : ℚ) < 3 →
      (stepDay (α := ℚ) (fun _ _ _ _ _ => 3) ⟨1/2, 19/20, 21⟩
        ⟨true, 0, 10, 95, 2, 2, 5⟩ 4 ⟨100, 20, 1/4⟩).2.exit_type = "threshold_exit" ∧
        (stepDay (α := ℚ) (fun _ _ _ _ _ => 3) ⟨1/2, 19/20, 21⟩
          ⟨true, 0, 10, 95, 2, 2, 5⟩ 4 ⟨100, 20, 1/4⟩).2.cash_balance =
          5 + 3 * option_coverage ∧
        (stepDay (α := ℚ) (fun _ _ _ _ _ => 3) ⟨1/2, 19/20, 21⟩
          ⟨true, 0, 10, 95, 2, 2, 5⟩ 4 ⟨100, 20, 1/4⟩).2.option_balance = 0 ∧
        (stepDay (α := ℚ) (fun _ _ _ _ _ => 3) ⟨1/2, 19/20, 21⟩
          ⟨true, 0, 10, 95, 2, 2, 5⟩ 4 ⟨100, 20, 1/4⟩).1.active = false ∧
        (stepDay (α := ℚ) (fun _ _ _ _ _ => 3) ⟨1/2, 19/20, 21⟩
          ⟨true, 0, 10, 95, 2, 2, 5⟩ 4 ⟨100, 20, 1/4⟩).2.opened = false) :=
  threshold_exit_rule (fun _ _ _ _ _ => 3) ⟨1/2, 19/20, 21⟩
    ⟨true, 0, 10, 95, 2, 2, 5⟩ 4 ⟨100, 20, 1/4⟩ rfl (by norm_num) rfl

/-- C10: on an expiry-exit day no new position opens, whatever the crash
probability is (the entry branch at source line 157 is the `elif` of the
`if active_option` branch); from the resulting state, any following day
whose probability meets the threshold opens a position, so the earliest
re-entry is the next day. -/
theorem no_reentry_on_expiry_day (price : α → α → α → α → α → α) (cfg : Cfg α)
    (s : BtState α) (i : ℕ) (d : Day α) (hact : s.active = true)
    (hexp : (i : ℤ) = s.expiryIdx) :
    (stepDay price cfg s i d).2.opened = false ∧
      (stepDay price cfg s i d).1.active = false ∧
      ∀ d' : Day α, cfg.threshold ≤ d'.prob →
        (stepDay price cfg (stepDay price cfg s i d).1 (i + 1) d').2.opened = true := by
  have h1 : (stepDay price cfg s i d).2.opened = false ∧
      (stepDay price cfg s i d).1.active = false := by
    simp [stepDay, hact, ← hexp]
  refine ⟨h1.1, h1.2, fun d' hsig => ?_⟩
  rw [stepDay]
  simp [h1.2, hsig]

/-- Witness for C10 at a concrete expiring state over `ℚ`, with a
next-day probability above the threshold. -/
theorem no_reentry_on_expiry_day_witness :
    (stepDay (α := ℚ) (fun _ _ _ _ _ => 1) ⟨1/2, 19/20, 21⟩
        ⟨true, 0, 5, 95, 3, 3, 10⟩ 5 ⟨90, 20, 9/10⟩).2.opened = false ∧
      (stepDay (α := ℚ) (fun _ _ _ _ _ => 1) ⟨1/2, 19/20, 21⟩
        ⟨true, 0, 5, 95, 3, 3, 10⟩ 5 ⟨90, 20, 9/10⟩).1.active = false ∧
      ∀ d' : Day ℚ, (1 : ℚ)/2 ≤ d'.prob →
        (stepDay (α := ℚ) (fun _ _ _ _ _ => 1) ⟨1/2, 19/20, 21⟩
          (stepDay (α := ℚ) (fun _ _ _ _ _ => 1) ⟨1/2, 19/20, 21⟩
            ⟨true, 0, 5, 95, 3, 3, 10⟩ 5 ⟨90, 20, 9/10⟩).1 6 d').2.opened = true :=
  no_reentry_on_expiry_day (fun _ _ _ _ _ => 1) ⟨1/2, 19/20, 21⟩
    ⟨true, 0, 5, 95, 3, 3, 10⟩ 5 ⟨90, 20, 9/10⟩ rfl (by norm_num)

end Backtest

namespace Backtest

variable {α : Type} [LinearOrderedField α]

theorem exit_before_reopen (price : α → α → α → α → α → α) (cfg : Cfg α) :
    ∀ (days : List (Day α)) (s : BtState α) (i0 : ℕ), s.active = true →
      ∀ (j : ℕ) (hj : j < (runRows price cfg s i0 days).length),
        ((runRows price cfg s i0 days).get ⟨j, hj⟩).opened = true →
        ∃ k, k < j ∧ ∃ hk : k < (runRows price cfg s i0 days).length,
          isExitRow ((runRows price cfg s i0 days).get ⟨k, hk⟩)
  | [], _, _, _, _, hj, _ => by simp [runRows] at hj
  | d :: ds, s, i0, hs, 0, hj, hop => by
      exfalso
      have h0 : (stepDay price cfg s i0 d).2.opened = true := by
        simpa [runRows] using hop
      have := stepDay_opened_of_inactive price cfg s i0 d h0
      simp [this] at hs
  | d :: ds, s, i0, hs, j + 1, hj, hop => by
      have hj' : j < (runRows price cfg (stepDay price cfg s i0 d).1 (i0 + 1) ds).length := by
        simp only [runRows_length] at hj ⊢
        simpa using Nat.lt_of_succ_lt_succ (by simpa [List.length_cons] using hj)
      have hop' : ((runRows price cfg (stepDay price cfg s i0 d).1 (i0 + 1) ds).get
          ⟨j, hj'⟩).opened = true := by
        simpa [runRows, List.get_eq_getElem, List.getElem_cons_succ] using hop
      by_cases hA : (stepDay price cfg s i0 d).1.active = true
      · obtain ⟨k, hkj, hk, hex⟩ :=
          exit_before_reopen price cfg ds (stepDay price cfg s i0 d).1 (i0 + 1) hA j hj' hop'
        refine ⟨k + 1, by omega, ?_, ?_⟩
        · simp only [runRows_length] at hk ⊢
          simp only [List.length_cons]
          omega
        · simpa [runRows, List.get_eq_getElem, List.getElem_cons_succ] using hex
      · have hA' : (stepDay price cfg s i0 d).1.active = false := by
          simpa using hA
        have hex := stepDay_exit_of_close price cfg s i0 d hs hA'
        refine ⟨0, Nat.succ_pos j, ?_, ?_⟩
        · simp [runRows]
        · simpa [runRows, List.get_eq_getElem, List.getElem_cons_zero] using hex

theorem exit_between_entries (price : α → α → α → α → α → α) (cfg : Cfg α) :
    ∀ (days : List (Day α)) (s : BtState α) (i0 : ℕ) (i j : ℕ)
      (hi : i < (runRows price cfg s i0 days).length)
      (hj : j < (runRows price cfg s i0 days).length), i < j →
      ((runRows price cfg s i0 days).get ⟨i, hi⟩).opened = true →
      ((runRows price cfg s i0 days).get ⟨j, hj⟩).opened = true →
      ∃ k, i ≤ k ∧ k < j ∧ ∃ hk : k < (runRows price cfg s i0 days).length,
        isExitRow ((runRows price cfg s i0 days).get ⟨k, hk⟩)
  | [], _, _, _, _, hi, _, _, _, _ => by simp [runRows] at hi
  | d :: ds, s, i0, 0, 0, _, _, hij, _, _ => by omega
  | d :: ds, s, i0, 0, j + 1, hi, hj, hij, hopi, hopj => by
      have h0 : (stepDay price cfg s i0 d).2.opened = true := by
        simpa [runRows] using hopi
      have hA : (stepDay price cfg s i0 d).1.active = true :=
        stepDay_opened_next_active price cfg s i0 d h0
      have hj' : j < (runRows price cfg (stepDay price cfg s i0 d).1 (i0 + 1) ds).length := by
        simp only [runRows_length] at hj ⊢
        simpa using Nat.lt_of_succ_lt_succ (by simpa [List.length_cons] using hj)
      have hopj' : ((runRows price cfg (stepDay price cfg s i0 d).1 (i0 + 1) ds).get
          ⟨j, hj'⟩).opened = true := by
        simpa [runRows, List.get_eq_getElem, List.getElem_cons_succ] using hopj
      obtain ⟨k, hkj, hk, hex⟩ :=
        exit_before_reopen price cfg ds (stepDay price cfg s i0 d).1 (i0 + 1) hA j hj' hopj'
      refine ⟨k + 1, by omega, by omega, ?_, ?_⟩
      · simp only [runRows_length] at hk ⊢
        simp only [List.length_cons]
        omega
      · simpa [runRows, List.get_eq_getElem, List.getElem_cons_succ] using hex
  | d :: ds, s, i0, i + 1, j, hi, hj, hij, hopi, hopj => by
      obtain ⟨j', rfl⟩ : ∃ j', j = j' + 1 := ⟨j - 1, by omega⟩
      have hi' : i < (runRows price cfg (stepDay price cfg s i0 d).1 (i0 + 1) ds).length := by
        simp only [runRows_length] at hi ⊢
        simpa using Nat.lt_of_succ_lt_succ (by simpa [List.length_cons] using hi)
      have hj' : j' < (runRows price cfg (stepDay price cfg s i0 d).1 (i0 + 1) ds).length := by
        simp only [runRows_length] at hj ⊢
        simpa using Nat.lt_of_succ_lt_succ (by simpa [List.length_cons] using hj)
      have hopi' : ((runRows price cfg (stepDay price cfg s i0 d).1 (i0 + 1) ds).get
          ⟨i, hi'⟩).opened = true := by
        simpa [runRows, List.get_eq_getElem, List.getElem_cons_succ] using hopi
      have hopj' : ((runRows price cfg (stepDay price cfg s i0 d).1 (i0 + 1) ds).get
          ⟨j', hj'⟩).opened = true := by
        simpa [runRows, List.get_eq_getElem, List.getElem_cons_succ] using hopj
      obtain ⟨k, hik, hkj, hk, hex⟩ :=
        exit_between_entries price cfg ds (stepDay price cfg s i0 d).1 (i0 + 1) i j'
          hi' hj' (by omega) hopi' hopj'
      refine ⟨k + 1, by omega, by omega, ?_, ?_⟩
      · simp only [runRows_length] at hk ⊢
        simp only [List.length_cons]
        omega
      · simpa [runRows, List.get_eq_getElem, List.getElem_cons_succ] using hex

end Backtest

namespace Backtest

/-- C8: (1) a new position is opened only when no position is currently
active (the entry branch is the `elif` of `if active_option`, source
line 157); (2) active lifetimes never overlap: between any two entry
days of a run there is an exit day, so at most one position is active at
any day index. -/
theorem at_most_one_active_position :
    (∀ (α : Type) [LinearOrderedField α] (price : α → α → α → α → α → α)
        (cfg : Cfg α) (s : BtState α) (i : ℕ) (d : Day α),
        (stepDay price cfg s i d).2.opened = true → s.active = false) ∧
    (∀ (α : Type) [LinearOrderedField α] (price : α → α → α → α → α → α)
        (cfg : Cfg α) (days : List (Day α)) (i j : ℕ)
        (hi : i < (rowsOf price cfg days).length)
        (hj : j < (rowsOf price cfg days).length), i < j →
        ((rowsOf price cfg days).get ⟨i, hi⟩).opened = true →
        ((rowsOf price cfg days).get ⟨j, hj⟩).opened = true →
        ∃ k, i ≤ k ∧ k < j ∧ ∃ hk : k < (rowsOf price cfg days).length,
          isExitRow ((rowsOf price cfg days).get ⟨k, hk⟩)) := by
  constructor
  · intro α _ price cfg s i d h
    exact stepDay_opened_of_inactive price cfg s i d h
  · intro α _ price cfg days i j hi hj hij hopi hopj
    exact exit_between_entries price cfg days {} 0 i j hi hj hij hopi hopj

/-- Witness for C8 on a concrete three-day run over `ℚ` with entries on
days 0 and 2 and an expiry exit on day 1. -/
theorem at_most_one_active_position_witness :
    ∃ k, 0 ≤ k ∧ k < 2 ∧
      ∃ hk : k < (rowsOf (α := ℚ) (fun _ _ _ _ _ => 1) ⟨1/2, 19/20, 1⟩
          [⟨100, 20, 3/5⟩, ⟨100, 20, 3/5⟩, ⟨100, 20, 3/5⟩]).length,
        isExitRow ((rowsOf (α := ℚ) (fun _ _ _ _ _ => 1) ⟨1/2, 19/20, 1⟩
          [⟨100, 20, 3/5⟩, ⟨100, 20, 3/5⟩, ⟨100, 20, 3/5⟩]).get ⟨k, hk⟩) :=
  at_most_one_active_position.2 ℚ (fun _ _ _ _ _ => 1) ⟨1/2, 19/20, 1⟩
    [⟨100, 20, 3/5⟩, ⟨100, 20, 3/5⟩, ⟨100, 20, 3/5⟩] 0 2
    (by simp [rowsOf, runRows_length])
    (by simp [rowsOf, runRows_length])
    (by norm_num)
    (by norm_num [rowsOf, runRows, stepDay, List.get, risk_free_rate, option_coverage])
    (by norm_num [rowsOf, runRows, stepDay, List.get, risk_free_rate, option_coverage])

/-- C6 (the code side): the loop never assigns `"still_active"` to
`exit_type` (only `"threshold_exit"` and `"expiry"` are written, source
lines 136 and 151), so the `still_active` count of source line 245 is 0
for every run — including the concrete run below, which ends with the
position still open. -/
theorem still_active_count_eq_zero :
    (∀ (α : Type) [LinearOrderedField α] (price : α → α → α → α → α → α)
        (cfg : Cfg α) (s : BtState α) (i : ℕ) (days : List (Day α)),
        countStillActive (runRows price cfg s i days) = 0) ∧
    ((runState (α := ℚ) (fun _ _ _ _ _ => 1) ⟨1/2, 19/20, 21⟩ {} 0
        [⟨100, 20, 3/5⟩, ⟨100, 20, 3/10⟩]).active = true ∧
      countStillActive (rowsOf (α := ℚ) (fun _ _ _ _ _ => 1) ⟨1/2, 19/20, 21⟩
        [⟨100, 20, 3/5⟩, ⟨100, 20, 3/10⟩]) = 0) := by
  refine ⟨?_, ?_, ?_⟩
  · intro α _ price cfg s i days
    induction days generalizing s i with
    | nil => rfl
    | cons d ds ih =>
      have hb : (((stepDay price cfg s i d).2.exit_type) == "still_active") = false := by
        rcases stepDay_exit_type_mem price cfg s i d with h | h
        · rw [h]; decide
        · unfold isExitRow at h
          rcases h with h | h <;> rw [h] <;> decide
      simpa [runRows, countStillActive, List.filter_cons, hb] using
        ih (stepDay price cfg s i d).1 (i + 1)
  · norm_num [runState, stepDay, risk_free_rate, option_coverage]
  · norm_num [rowsOf, runRows, stepDay, countStillActive, risk_free_rate,
      option_coverage]
    decide

/-- C7 (amended): the backtest performs no input validation — for every
input sequence, valid or not, the loop runs to completion and produces
exactly one ledger row per input day; there is no abort path. -/
theorem one_ledger_row_per_input_day :
    ∀ (α : Type) [LinearOrderedField α] (price : α → α → α → α → α → α)
      (cfg : Cfg α) (days : List (Day α)),
      (ledgerOf price cfg days).length = days.length := by
  intro α _ price cfg days
  simp [ledgerOf, rowsOf, runRows_length]

/-- Counterexample to C7 as stated: a one-day input whose crash
probability is 2 (outside `[0,1]`) is not rejected — the run produces a
full one-row ledger instead of aborting before any ledger rows. -/
theorem invalid_input_not_rejected :
    (1 : ℚ) < (Day.mk (α := ℚ) 100 20 2).prob ∧
      (ledgerOf (α := ℚ) (fun _ _ _ _ _ => 1) ⟨1/2, 19/20, 21⟩
        [⟨100, 20, 2⟩]).length = 1 := by
  constructor
  · norm_num
  · simp [ledgerOf, rowsOf, runRows_length]

end Backtest

namespace Backtest.BS

theorem Phi_zero : Phi 0 = 1 / 2 := by
  simp [Phi]

/-- C4: for positive spot, strike, volatility and time to expiry the
pricer returns exactly the closed-form Black-Scholes put value
`K·e^(-rT)·Φ(-d2) − S·e^(-qT)·Φ(-d1)` with
`d1 = (ln(S/K) + (r - q + 0.5σ²)·T)/(σ√T)` and `d2 = d1 - σ√T`, as the
spec formula `specPut` states; as a Lean function it is pure and
deterministic. -/
theorem put_price_matches_spec_formula (S K T r sigma q : ℝ)
    (hS : 0 < S) (hK : 0 < K) (hsigma : 0 < sigma) (hT : 0 < T) :
    estimate_put_option_price S K T r sigma q = specPut S K T r sigma q := rfl

/-- Witness for C4 at the spec's reference inputs. -/
theorem put_price_matches_spec_formula_witness :
    estimate_put_option_price 100 95 (21/252) (2/100) (3/10) 0 =
      specPut 100 95 (21/252) (2/100) (3/10) 0 :=
  put_price_matches_spec_formula 100 95 (21/252) (2/100) (3/10) 0
    (by norm_num) (by norm_num) (by norm_num) (by norm_num)

/-- C5 (the code side): called with `sigma = 0` the pricer signals no
error at all — it is a total function that silently returns a value.  In
this embedding, where `x / 0 = 0`, both `d1` and `d2` collapse to `0`
and the returned value is `(K·e^(-rT) − S·e^(-qT))·Φ(0)`; under IEEE
arithmetic the same code path divides by zero and yields a non-finite
result.  No input check exists on any path. -/
theorem sigma_zero_returns_silently (S K T r q : ℝ) :
    estimate_put_option_price S K T r 0 q =
      (K * Real.exp (-(r * T)) - S * Real.exp (-(q * T))) * (1 / 2) := by
  simp only [estimate_put_option_price, bsD2, bsD1]
  norm_num [Phi_zero]
  ring

end Backtest.BS

namespace Backtest.BS

open MeasureTheory Set

theorem gauss_nonneg (t : ℝ) : 0 ≤ gauss t := by
  unfold gauss
  positivity

theorem gauss_neg (t : ℝ) : gauss (-t) = gauss t := by
  unfold gauss
  rw [neg_sq]

theorem gauss_continuous : Continuous gauss := by
  unfold gauss
  fun_prop

theorem gauss_integrable : Integrable gauss := by
  have h : gauss = fun t => (Real.sqrt (2 * Real.pi))⁻¹ * Real.exp (-(1/2 : ℝ) * t ^ 2) := by
    funext t
    unfold gauss
    ring_nf
  rw [h]
  exact (integrable_exp_neg_mul_sq (by norm_num)).const_mul _

theorem gauss_integral : ∫ t, gauss t = 1 := by
  have h : gauss = fun t => (Real.sqrt (2 * Real.pi))⁻¹ * Real.exp (-(1/2 : ℝ) * t ^ 2) := by
    funext t
    unfold gauss
    ring_nf
  have h2 : Real.pi / (1/2 : ℝ) = 2 * Real.pi := by ring
  rw [h, MeasureTheory.integral_mul_left, integral_gaussian, h2]
  exact inv_mul_cancel₀ (ne_of_gt (Real.sqrt_pos.mpr (by positivity)))

theorem gauss_integral_Iic_zero : ∫ t in Iic (0 : ℝ), gauss t = 1 / 2 := by
  have hs : ∫ t in Iic (0 : ℝ), gauss t = ∫ t in Ioi (0 : ℝ), gauss t := by
    have h := integral_comp_neg_Iic (0 : ℝ) gauss
    simp only [gauss_neg, neg_zero] at h
    exact h
  have hadd : (∫ t in Iic (0 : ℝ), gauss t) + ∫ t in Ioi (0 : ℝ), gauss t = ∫ t, gauss t := by
    have h := integral_add_compl (measurableSet_Iic (a := (0 : ℝ))) gauss_integrable
    simpa [Set.compl_Iic] using h
  rw [gauss_integral, ← hs] at hadd
  linarith

theorem hasDerivAt_Phi (x : ℝ) : HasDerivAt Phi (gauss x) x := by
  have h : HasDerivAt (fun u => ∫ t in (0 : ℝ)..u, gauss t) (gauss x) x :=
    intervalIntegral.integral_hasDerivAt_right
      (gauss_continuous.intervalIntegrable 0 x)
      (gauss_continuous.stronglyMeasurableAtFilter _ _)
      gauss_continuous.continuousAt
  exact h.const_add (1/2 : ℝ)

theorem Phi_nonneg (x : ℝ) : 0 ≤ Phi x := by
  unfold Phi
  rcases le_or_lt 0 x with hx | hx
  · have h := intervalIntegral.integral_nonneg_of_forall (μ := volume)
      (f := gauss) hx (fun u => gauss_nonneg u)
    linarith
  · have h1 : ∫ t in (0 : ℝ)..x, gauss t = -∫ t in x..(0 : ℝ), gauss t := by
      rw [intervalIntegral.integral_symm]
    have h2 : ∫ t in x..(0 : ℝ), gauss t = ∫ t in Ioc x (0 : ℝ), gauss t :=
      intervalIntegral.integral_of_le hx.le
    have h3 : ∫ t in Ioc x (0 : ℝ), gauss t ≤ ∫ t in Iic (0 : ℝ), gauss t := by
      apply setIntegral_mono_set gauss_integrable.integrableOn
        (Filter.Eventually.of_forall gauss_nonneg)
        (HasSubset.Subset.eventuallyLE Ioc_subset_Iic_self)
    rw [h1, h2]
    have h4 := gauss_integral_Iic_zero
    linarith

end Backtest.BS

namespace Backtest.BS

theorem bs_density_identity (S K T r sigma q : ℝ) (hS : 0 < S) (hK : 0 < K)
    (hT : 0 < T) (hsigma : 0 < sigma) :
    K * Real.exp (-(r * T)) * gauss (bsD2 S K T r sigma q) =
      S * Real.exp (-(q * T)) * gauss (bsD1 S K T r sigma q) := by
  have hv : (0 : ℝ) < sigma * Real.sqrt T := mul_pos hsigma (Real.sqrt_pos.mpr hT)
  have hd1v : bsD1 S K T r sigma q * (sigma * Real.sqrt T) =
      Real.log (S / K) + (r - q + 0.5 * sigma ^ 2) * T :=
    div_mul_cancel₀ _ (ne_of_gt hv)
  rw [Real.log_div (ne_of_gt hS) (ne_of_gt hK)] at hd1v
  have hv2 : (sigma * Real.sqrt T) ^ 2 = sigma ^ 2 * T := by
    rw [mul_pow, Real.sq_sqrt hT.le]
  have key : Real.log K + -(r * T) + -((bsD1 S K T r sigma q - sigma * Real.sqrt T) ^ 2 / 2) =
      Real.log S + -(q * T) + -(bsD1 S K T r sigma q ^ 2 / 2) := by
    linear_combination hd1v - (1 / 2) * hv2
  calc K * Real.exp (-(r * T)) * gauss (bsD2 S K T r sigma q)
      = (Real.sqrt (2 * Real.pi))⁻¹ *
          Real.exp (Real.log K + -(r * T) +
            -((bsD1 S K T r sigma q - sigma * Real.sqrt T) ^ 2 / 2)) := by
        rw [Real.exp_add, Real.exp_add, Real.exp_log hK]
        unfold gauss bsD2
        ring
    _ = (Real.sqrt (2 * Real.pi))⁻¹ *
          Real.exp (Real.log S + -(q * T) + -(bsD1 S K T r sigma q ^ 2 / 2)) := by
        rw [key]
    _ = S * Real.exp (-(q * T)) * gauss (bsD1 S K T r sigma q) := by
        rw [Real.exp_add, Real.exp_add, Real.exp_log hS]
        unfold gauss
        ring

end Backtest.BS

namespace Backtest.BS

open Set

theorem hasDerivAt_bsD1_spot (K T r sigma q S : ℝ) (hS : 0 < S) (hK : 0 < K) :
    HasDerivAt (fun s => bsD1 s K T r sigma q)
      (S⁻¹ / (sigma * Real.sqrt T)) S := by
  have h1 : HasDerivAt (fun s : ℝ => s / K) (1 / K) S := (hasDerivAt_id S).div_const K
  have h2 : HasDerivAt (fun s : ℝ => Real.log (s / K)) S⁻¹ S := by
    have h3 := (Real.hasDerivAt_log (x := S / K) (by positivity)).comp S h1
    have h4 : (S / K)⁻¹ * (1 / K) = S⁻¹ := by
      field_simp
      ring
    rw [h4] at h3
    simpa [Function.comp_def] using h3
  exact (h2.add_const _).div_const _

theorem hasDerivAt_put_spot (K T r sigma q S : ℝ) (hS : 0 < S) (hK : 0 < K)
    (hT : 0 < T) (hsigma : 0 < sigma) :
    HasDerivAt (fun s => estimate_put_option_price s K T r sigma q)
      (-(Real.exp (-(q * T)) * Phi (-(bsD1 S K T r sigma q)))) S := by
  have hd1 : HasDerivAt (fun s => bsD1 s K T r sigma q)
      (S⁻¹ / (sigma * Real.sqrt T)) S := hasDerivAt_bsD1_spot K T r sigma q S hS hK
  have hd2 : HasDerivAt (fun s => bsD2 s K T r sigma q)
      (S⁻¹ / (sigma * Real.sqrt T)) S := by
    unfold bsD2
    exact hd1.sub_const _
  have hPhi2 : HasDerivAt (fun s => Phi (-(bsD2 s K T r sigma q)))
      (gauss (-(bsD2 S K T r sigma q)) * -(S⁻¹ / (sigma * Real.sqrt T))) S := by
    have h := (hasDerivAt_Phi (-(bsD2 S K T r sigma q))).comp S hd2.neg
    simpa [Function.comp_def] using h
  have hPhi1 : HasDerivAt (fun s => Phi (-(bsD1 s K T r sigma q)))
      (gauss (-(bsD1 S K T r sigma q)) * -(S⁻¹ / (sigma * Real.sqrt T))) S := by
    have h := (hasDerivAt_Phi (-(bsD1 S K T r sigma q))).comp S hd1.neg
    simpa [Function.comp_def] using h
  have hterm1 : HasDerivAt
      (fun s => K * Real.exp (-(r * T)) * Phi (-(bsD2 s K T r sigma q)))
      (K * Real.exp (-(r * T)) *
        (gauss (-(bsD2 S K T r sigma q)) * -(S⁻¹ / (sigma * Real.sqrt T)))) S :=
    hPhi2.const_mul _
  have hlin : HasDerivAt (fun s : ℝ => s * Real.exp (-(q * T)))
      (Real.exp (-(q * T))) S := by
    simpa using hasDerivAt_mul_const (Real.exp (-(q * T)))
  have hterm2 : HasDerivAt
      (fun s => s * Real.exp (-(q * T)) * Phi (-(bsD1 s K T r sigma q)))
      (Real.exp (-(q * T)) * Phi (-(bsD1 S K T r sigma q)) +
        S * Real.exp (-(q * T)) *
          (gauss (-(bsD1 S K T r sigma q)) * -(S⁻¹ / (sigma * Real.sqrt T)))) S :=
    hlin.mul hPhi1
  have htotal := hterm1.sub hterm2
  have hident := bs_density_identity S K T r sigma q hS hK hT hsigma
  have hval : K * Real.exp (-(r * T)) *
        (gauss (-(bsD2 S K T r sigma q)) * -(S⁻¹ / (sigma * Real.sqrt T))) -
      (Real.exp (-(q * T)) * Phi (-(bsD1 S K T r sigma q)) +
        S * Real.exp (-(q * T)) *
          (gauss (-(bsD1 S K T r sigma q)) * -(S⁻¹ / (sigma * Real.sqrt T)))) =
      -(Real.exp (-(q * T)) * Phi (-(bsD1 S K T r sigma q))) := by
    rw [gauss_neg, gauss_neg]
    linear_combination -(S⁻¹ / (sigma * Real.sqrt T)) * hident
  rw [hval] at htotal
  exact htotal

theorem put_antitone_spot (K T r sigma q : ℝ) (hK : 0 < K) (hT : 0 < T)
    (hsigma : 0 < sigma) :
    AntitoneOn (fun s => estimate_put_option_price s K T r sigma q) (Ioi 0) := by
  apply antitoneOn_of_deriv_nonpos (convex_Ioi 0)
  · intro x hx
    exact (hasDerivAt_put_spot K T r sigma q x hx hK hT hsigma).continuousAt.continuousWithinAt
  · intro x hx
    rw [interior_Ioi] at hx
    exact (hasDerivAt_put_spot K T r sigma q x hx hK hT hsigma).differentiableAt.differentiableWithinAt
  · intro x hx
    rw [interior_Ioi] at hx
    rw [(hasDerivAt_put_spot K T r sigma q x hx hK hT hsigma).deriv]
    have h1 : 0 ≤ Real.exp (-(q * T)) * Phi (-(bsD1 x K T r sigma q)) :=
      mul_nonneg (Real.exp_pos _).le (Phi_nonneg _)
    linarith

end Backtest.BS

namespace Backtest.BS

open Set

theorem hasDerivAt_bsD1_vol (S K T r q sigma : ℝ) (hT : 0 < T) (hsigma : 0 < sigma) :
    HasDerivAt (fun v => bsD1 S K T r v q)
      (Real.sqrt T / 2 -
        (Real.log (S / K) + (r - q) * T) / (sigma ^ 2 * Real.sqrt T)) sigma := by
  have hden : HasDerivAt (fun v : ℝ => v * Real.sqrt T) (Real.sqrt T) sigma :=
    hasDerivAt_mul_const _
  have hnum : HasDerivAt (fun v : ℝ => Real.log (S / K) + (r - q + 0.5 * v ^ 2) * T)
      (sigma * T) sigma := by
    have hp : HasDerivAt (fun v : ℝ => v ^ 2) (2 * sigma) sigma := by
      simpa using hasDerivAt_pow 2 sigma
    have h := (((hp.const_mul (0.5 : ℝ)).const_add (r - q)).mul_const T).const_add
      (Real.log (S / K))
    convert h using 1
    ring
  have hd := hnum.div hden (by positivity)
  convert hd using 1
  have hsqrt_pos : 0 < Real.sqrt T := Real.sqrt_pos.mpr hT
  have hsq : Real.sqrt T ^ 2 = T := Real.sq_sqrt hT.le
  set u := Real.sqrt T with hu
  simp only [← hsq]
  field_simp
  ring

theorem hasDerivAt_put_vol (S K T r q sigma : ℝ) (hS : 0 < S) (hK : 0 < K)
    (hT : 0 < T) (hsigma : 0 < sigma) :
    HasDerivAt (fun v => estimate_put_option_price S K T r v q)
      (S * Real.exp (-(q * T)) * gauss (bsD1 S K T r sigma q) * Real.sqrt T) sigma := by
  have hd1 : HasDerivAt (fun v => bsD1 S K T r v q)
      (Real.sqrt T / 2 -
        (Real.log (S / K) + (r - q) * T) / (sigma ^ 2 * Real.sqrt T)) sigma :=
    hasDerivAt_bsD1_vol S K T r q sigma hT hsigma
  have hd2 : HasDerivAt (fun v => bsD2 S K T r v q)
      (Real.sqrt T / 2 -
        (Real.log (S / K) + (r - q) * T) / (sigma ^ 2 * Real.sqrt T) -
        Real.sqrt T) sigma := by
    unfold bsD2
    exact hd1.sub (hasDerivAt_mul_const _)
  have hPhi2 : HasDerivAt (fun v => Phi (-(bsD2 S K T r v q)))
      (gauss (-(bsD2 S K T r sigma q)) *
        -(Real.sqrt T / 2 -
          (Real.log (S / K) + (r - q) * T) / (sigma ^ 2 * Real.sqrt T) -
          Real.sqrt T)) sigma := by
    have h := (hasDerivAt_Phi (-(bsD2 S K T r sigma q))).comp sigma hd2.neg
    simpa [Function.comp_def] using h
  have hPhi1 : HasDerivAt (fun v => Phi (-(bsD1 S K T r v q)))
      (gauss (-(bsD1 S K T r sigma q)) *
        -(Real.sqrt T / 2 -
          (Real.log (S / K) + (r - q) * T) / (sigma ^ 2 * Real.sqrt T))) sigma := by
    have h := (hasDerivAt_Phi (-(bsD1 S K T r sigma q))).comp sigma hd1.neg
    simpa [Function.comp_def] using h
  have htotal := (hPhi2.const_mul (K * Real.exp (-(r * T)))).sub
    (hPhi1.const_mul (S * Real.exp (-(q * T))))
  have hident := bs_density_identity S K T r sigma q hS hK hT hsigma
  have hval : K * Real.exp (-(r * T)) *
        (gauss (-(bsD2 S K T r sigma q)) *
          -(Real.sqrt T / 2 -
            (Real.log (S / K) + (r - q) * T) / (sigma ^ 2 * Real.sqrt T) -
            Real.sqrt T)) -
      S * Real.exp (-(q * T)) *
        (gauss (-(bsD1 S K T r sigma q)) *
          -(Real.sqrt T / 2 -
            (Real.log (S / K) + (r - q) * T) / (sigma ^ 2 * Real.sqrt T))) =
      S * Real.exp (-(q * T)) * gauss (bsD1 S K T r sigma q) * Real.sqrt T := by
    rw [gauss_neg, gauss_neg]
    linear_combination (Real.sqrt T -
      (Real.sqrt T / 2 -
        (Real.log (S / K) + (r - q) * T) / (sigma ^ 2 * Real.sqrt T))) * hident
  rw [hval] at htotal
  exact htotal

theorem put_monotone_vol (S K T r q : ℝ) (hS : 0 < S) (hK : 0 < K) (hT : 0 < T) :
    MonotoneOn (fun v => estimate_put_option_price S K T r v q) (Ioi 0) := by
  apply monotoneOn_of_deriv_nonneg (convex_Ioi 0)
  · intro x hx
    exact (hasDerivAt_put_vol S K T r q x hS hK hT hx).continuousAt.continuousWithinAt
  · intro x hx
    rw [interior_Ioi] at hx
    exact (hasDerivAt_put_vol S K T r q x hS hK hT hx).differentiableAt.differentiableWithinAt
  · intro x hx
    rw [interior_Ioi] at hx
    rw [(hasDerivAt_put_vol S K T r q x hS hK hT hx).deriv]
    have h1 : 0 ≤ S * Real.exp (-(q * T)) * gauss (bsD1 S K T r x q) :=
      mul_nonneg (mul_nonneg hS.le (Real.exp_pos _).le) (gauss_nonneg _)
    exact mul_nonneg h1 (Real.sqrt_nonneg _)

/-- C9: with strike, time to expiry, rate and dividend yield fixed and
all preconditions positive, the Black-Scholes put price is non-increasing
in the spot and non-decreasing in the volatility. -/
theorem put_price_monotone :
    ∀ (K T r q : ℝ), 0 < K → 0 < T →
      (∀ sigma, 0 < sigma → ∀ S1 S2, 0 < S1 → S1 ≤ S2 →
        estimate_put_option_price S2 K T r sigma q ≤
          estimate_put_option_price S1 K T r sigma q) ∧
      (∀ S, 0 < S → ∀ v1 v2, 0 < v1 → v1 ≤ v2 →
        estimate_put_option_price S K T r v1 q ≤
          estimate_put_option_price S K T r v2 q) := by
  intro K T r q hK hT
  constructor
  · intro sigma hsigma S1 S2 hS1 hS12
    exact put_antitone_spot K T r sigma q hK hT hsigma (Set.mem_Ioi.mpr hS1)
      (Set.mem_Ioi.mpr (lt_of_lt_of_le hS1 hS12)) hS12
  · intro S hS v1 v2 hv1 hv12
    exact put_monotone_vol S K T r q hS hK hT (Set.mem_Ioi.mpr hv1)
      (Set.mem_Ioi.mpr (lt_of_lt_of_le hv1 hv12)) hv12

/-- Witness for C9 at concrete positive inputs. -/
theorem put_price_monotone_witness :
    estimate_put_option_price 2 1 1 0 1 0 ≤ estimate_put_option_price 1 1 1 0 1 0 ∧
      estimate_put_option_price 1 1 1 0 1 0 ≤ estimate_put_option_price 1 1 1 0 2 0 :=
  ⟨(put_price_monotone 1 1 0 0 (by norm_num) (by norm_num)).1 1 (by norm_num) 1 2
      (by norm_num) (by norm_num),
    (put_price_monotone 1 1 0 0 (by norm_num) (by norm_num)).2 1 (by norm_num) 1 2
      (by norm_num) (by norm_num)⟩

end Backtest.BS
